import Mathlib

/-!
Verification of the image-acquisition pipeline of the Scrap repository.

The Python source under `interface_py/` is shallowly embedded below:
paths are strings, the filesystem and the reserved-path set are finite
lists of path strings, dictionaries are association lists, and the
external effects (disk existence checks, the random phrase choice, the
OS rename outcome, the network fetch outcome) are explicit parameters.
-/

namespace Scrap

/-! ### Decimal rendering of natural numbers

`unique_path` builds candidate names with a Python f-string
`f"{base}_{counter}{ext}"`; the counter is rendered in decimal, which we
model with `Nat.repr`.  The allocator's termination and uniqueness
arguments need that this rendering is injective, proved here by
reconstructing the number from its digit characters. -/

/-- Decimal digit list of `n`, most significant first (`decRepr 0 = ['0']`).
This is what `Nat.toDigits 10` computes once its fuel is unfolded. -/
def decRepr (n : Nat) : List Char :=
  if _h : n < 10 then [Nat.digitChar n]
  else decRepr (n / 10) ++ [Nat.digitChar (n % 10)]
  termination_by n
  decreasing_by
    exact Nat.div_lt_self (by omega) (by omega)

/-- Numeric value of one digit character. -/
def charVal (c : Char) : Nat := c.toNat - 48

/-- Value of a digit-character list, most significant first. -/
def decVal (l : List Char) : Nat := l.foldl (fun a c => a * 10 + charVal c) 0

theorem charVal_digitChar : ∀ d, d < 10 → charVal (Nat.digitChar d) = d := by
  decide

theorem decVal_append_digit (l : List Char) (c : Char) :
    decVal (l ++ [c]) = decVal l * 10 + charVal c := by
  simp [decVal, List.foldl_append]

theorem decVal_decRepr (n : Nat) : decVal (decRepr n) = n := by
  induction n using Nat.strong_induction_on with
  | _ n ih =>
    rw [decRepr]
    by_cases h : n < 10
    · simp only [h, dif_pos]
      have : decVal [Nat.digitChar n] = charVal (Nat.digitChar n) := by
        simp [decVal, charVal]
      rw [this, charVal_digitChar n h]
    · simp only [h, dif_neg, not_false_iff]
      rw [decVal_append_digit, ih (n / 10) (Nat.div_lt_self (by omega) (by omega)),
        charVal_digitChar (n % 10) (Nat.mod_lt _ (by omega))]
      omega

theorem decRepr_injective : Function.Injective decRepr := by
  intro a b h
  have := decVal_decRepr a
  rw [h, decVal_decRepr] at this
  omega

theorem decRepr_ne_nil (n : Nat) : decRepr n ≠ [] := by
  rw [decRepr]
  by_cases h : n < 10 <;> simp [h]

/-- `Nat.toDigitsCore` with enough fuel prepends the decimal digits. -/
theorem toDigitsCore_eq_decRepr (f : Nat) :
    ∀ n ds, n < f → Nat.toDigitsCore 10 f n ds = decRepr n ++ ds := by
  induction f with
  | zero => intro n ds h; omega
  | succ f ih =>
    intro n ds h
    rw [Nat.toDigitsCore]
    by_cases h10 : n / 10 = 0
    · have hn : n < 10 := by omega
      rw [decRepr]
      simp [h10, hn, Nat.mod_eq_of_lt hn]
    · have hn : ¬ n < 10 := by
        intro hc
        exact h10 (Nat.div_eq_of_lt hc)
      have hrec : n / 10 < f := by
        have h1 : n / 10 < n := Nat.div_lt_self (by omega) (by omega)
        omega
      rw [if_neg h10, ih (n / 10) _ hrec]
      conv_rhs => rw [decRepr]
      simp [hn]

theorem repr_eq_decRepr (n : Nat) : Nat.repr n = String.mk (decRepr n) := by
  rw [Nat.repr, Nat.toDigits, toDigitsCore_eq_decRepr (n + 1) n [] (by omega)]
  simp [List.asString]

theorem natRepr_injective : Function.Injective Nat.repr := by
  intro a b h
  rw [repr_eq_decRepr, repr_eq_decRepr] at h
  exact decRepr_injective (by injection h)

theorem natRepr_data (n : Nat) : (Nat.repr n).data = decRepr n := by
  rw [repr_eq_decRepr]

/-! ### `os.path.splitext` and the path allocator `unique_path`
(`interface_py/download_helpers.py`) -/

/-- `str.rfind` for a single character: last index of `c` in `l`, `-1` when
absent (the convention `os.path` relies on). -/
def rfindAux (c : Char) : List Char → Int → Int → Int
  | [], _, acc => acc
  | x :: rest, i, acc => rfindAux c rest (i + 1) (if x = c then i else acc)

def rfindC (c : Char) (l : List Char) : Int := rfindAux c l 0 (-1)

/-- `os.path.splitext`: split off the extension at the last dot, provided the
last dot lies after the last separator and some non-dot character stands
between them (so a leading-dot name such as `.bashrc` is not split).
Mirrors `posixpath.splitext` with separator `/`. -/
def splitext (p : String) : String × String :=
  let l := p.data
  let sepIndex := rfindC '/' l
  let dotIndex := rfindC '.' l
  if sepIndex < dotIndex ∧
      ((l.drop (sepIndex + 1).toNat).take (dotIndex - sepIndex - 1).toNat).any
        (fun c => c ≠ '.') then
    (String.mk (l.take dotIndex.toNat), String.mk (l.drop dotIndex.toNat))
  else (p, "")

theorem splitext_recombine (p : String) : (splitext p).1 ++ (splitext p).2 = p := by
  apply String.ext
  simp only [splitext]
  split
  · simp only [String.data_append]
    exact List.take_append_drop _ _
  · simp

/-- `pathlib`'s `folder / name`, modelled as POSIX string concatenation. -/
def pathJoin (folder name : String) : String := folder ++ "/" ++ name

/-- Candidate path tried by the `unique_path` loop at step `k`: step `0` is
`folder / filename` itself, step `k ≥ 1` is `folder / f"{base}_{k}{ext}"`
with `base, ext = os.path.splitext(filename)`. -/
def candidateAt (folder filename : String) (k : Nat) : String :=
  if k = 0 then pathJoin folder filename
  else pathJoin folder
    ((splitext filename).1 ++ "_" ++ Nat.repr k ++ (splitext filename).2)

/-- The loop guard `candidate.exists() or candidate in reserved`, with the
on-disk state `fs` made an explicit finite list of existing paths. -/
def collides (fs reserved : List String) (c : String) : Bool :=
  decide (c ∈ fs) || decide (c ∈ reserved)

/-- Index of the first collision-free candidate at or after `start`, searched
with explicit fuel.  The Python loop is unbounded; `uniquePathFuel` below is
proved to be enough fuel for the search to always succeed. -/
def firstFree (bad : Nat → Bool) : Nat → Nat → Option Nat
  | 0, _ => none
  | fuel + 1, k => if bad k then firstFree bad fuel (k + 1) else some k

def uniquePathFuel (fs reserved : List String) : Nat :=
  fs.length + reserved.length + 2

/-- `download_helpers.unique_path`: returns the chosen path together with the
grown reserved set (the mutation `reserved.add(candidate)` made explicit;
the add happens before the path is returned). -/
def unique_path (fs : List String) (folder filename : String)
    (reserved : List String) : String × List String :=
  let bad := fun k => collides fs reserved (candidateAt folder filename k)
  let k := (firstFree bad (uniquePathFuel fs reserved) 0).getD
    (uniquePathFuel fs reserved)
  let chosen := candidateAt folder filename k
  (chosen, chosen :: reserved)

theorem candidateAt_data_pos (folder filename : String) (k : Nat) (hk : k ≠ 0) :
    (candidateAt folder filename k).data =
      folder.data ++ '/' :: ((splitext filename).1.data ++ '_' ::
        (decRepr k ++ (splitext filename).2.data)) := by
  simp only [candidateAt, hk, if_neg, pathJoin, String.data_append, natRepr_data]
  have h1 : ("/" : String).data = ['/'] := rfl
  have h2 : ("_" : String).data = ['_'] := rfl
  simp [h1, h2, natRepr_data]

theorem candidateAt_data_zero (folder filename : String) :
    (candidateAt folder filename 0).data =
      folder.data ++ '/' :: filename.data := by
  simp only [candidateAt, if_pos, pathJoin, String.data_append]
  have h1 : ("/" : String).data = ['/'] := rfl
  simp [h1]

theorem splitext_length (filename : String) :
    (splitext filename).1.data.length + (splitext filename).2.data.length =
      filename.data.length := by
  have h := congrArg String.data (splitext_recombine filename)
  simp only [String.data_append] at h
  have h2 := congrArg List.length h
  simpa using h2

theorem candidateAt_length_zero (folder filename : String) :
    (candidateAt folder filename 0).data.length =
      folder.data.length + 1 + filename.data.length := by
  rw [candidateAt_data_zero]
  simp only [List.length_append, List.length_cons]
  omega

theorem candidateAt_length_pos (folder filename : String) (k : Nat) (hk : k ≠ 0) :
    (candidateAt folder filename k).data.length =
      folder.data.length + 2 + filename.data.length + (decRepr k).length := by
  rw [candidateAt_data_pos folder filename k hk]
  have := splitext_length filename
  simp only [List.length_append, List.length_cons]
  omega

theorem candidateAt_injective (folder filename : String) :
    Function.Injective (candidateAt folder filename) := by
  intro a b h
  by_cases ha : a = 0 <;> by_cases hb : b = 0
  · omega
  · exfalso
    subst ha
    have hd := congrArg (fun s => s.data.length) h
    simp only [candidateAt_length_zero, candidateAt_length_pos folder filename b hb] at hd
    have hb2 : 1 ≤ (decRepr b).length := List.length_pos.mpr (decRepr_ne_nil b)
    omega
  · exfalso
    subst hb
    have hd := congrArg (fun s => s.data.length) h
    simp only [candidateAt_length_zero, candidateAt_length_pos folder filename a ha] at hd
    have ha2 : 1 ≤ (decRepr a).length := List.length_pos.mpr (decRepr_ne_nil a)
    omega
  · have hd := congrArg String.data h
    rw [candidateAt_data_pos folder filename a ha,
      candidateAt_data_pos folder filename b hb] at hd
    have h2 := List.append_cancel_left hd
    have h3 := List.cons_injective h2
    have h4 := List.append_cancel_left h3
    have h5 := List.cons_injective h4
    have h6 := List.append_cancel_right h5
    exact decRepr_injective h6

theorem collides_eq_false_iff (fs reserved : List String) (c : String) :
    collides fs reserved c = false ↔ c ∉ fs ∧ c ∉ reserved := by
  simp [collides]

/-- Pigeonhole: within `uniquePathFuel` steps some candidate is free, because
the candidates are pairwise distinct strings while the colliding set
`fs ∪ reserved` is finite. -/
theorem exists_free_candidate (fs reserved : List String) (folder filename : String) :
    ∃ k, k < uniquePathFuel fs reserved ∧
      collides fs reserved (candidateAt folder filename k) = false := by
  by_contra hcon
  push_neg at hcon
  have hmem : ∀ k ∈ Finset.range (uniquePathFuel fs reserved),
      candidateAt folder filename k ∈ (fs ++ reserved).toFinset := by
    intro k hk
    have := hcon k (Finset.mem_range.mp hk)
    rw [Bool.ne_false_iff] at this
    simp only [collides, Bool.or_eq_true, decide_eq_true_eq] at this
    simp only [List.mem_toFinset, List.mem_append]
    exact this
  have hinj : Set.InjOn (candidateAt folder filename)
      (Finset.range (uniquePathFuel fs reserved)) :=
    fun a _ b _ hab => candidateAt_injective folder filename hab
  have hcard := Finset.card_le_card_of_injOn _ hmem hinj
  have h1 : (Finset.range (uniquePathFuel fs reserved)).card =
      uniquePathFuel fs reserved := Finset.card_range _
  have h2 : (fs ++ reserved).toFinset.card ≤ (fs ++ reserved).length :=
    List.toFinset_card_le _
  rw [h1] at hcard
  simp only [List.length_append] at h2
  rw [uniquePathFuel] at hcard
  omega

theorem firstFree_isSome (bad : Nat → Bool) :
    ∀ fuel start, (∃ j, j < fuel ∧ bad (start + j) = false) →
      (firstFree bad fuel start).isSome := by
  intro fuel
  induction fuel with
  | zero => intro start h; obtain ⟨j, hj, -⟩ := h; omega
  | succ fuel ih =>
    intro start h
    rw [firstFree]
    by_cases hb : bad start
    · rw [if_pos hb]
      obtain ⟨j, hj, hjf⟩ := h
      have hj0 : j ≠ 0 := by
        intro h0
        rw [h0, Nat.add_zero] at hjf
        rw [hb] at hjf
        exact Bool.noConfusion hjf
      apply ih
      refine ⟨j - 1, by omega, ?_⟩
      have heq : start + 1 + (j - 1) = start + j := by omega
      rw [heq]
      exact hjf
    · rw [if_neg hb]
      exact rfl

theorem firstFree_spec (bad : Nat → Bool) :
    ∀ fuel start k, firstFree bad fuel start = some k →
      start ≤ k ∧ bad k = false ∧ ∀ i, start ≤ i → i < k → bad i = true := by
  intro fuel
  induction fuel with
  | zero => intro start k h; exact absurd h (by simp [firstFree])
  | succ fuel ih =>
    intro start k h
    rw [firstFree] at h
    by_cases hb : bad start
    · rw [if_pos hb] at h
      obtain ⟨h1, h2, h3⟩ := ih (start + 1) k h
      refine ⟨by omega, h2, ?_⟩
      intro i hi1 hi2
      by_cases hi : i = start
      · rw [hi]; exact hb
      · exact h3 i (by omega) hi2
    · rw [if_neg hb] at h
      obtain rfl : start = k := by injection h
      exact ⟨le_refl _, by simpa using hb, fun i h1 h2 => by omega⟩

/-- Full characterisation of one `unique_path` call: the result is the
candidate at the least collision-free step (so suffixes `_1, _2, …` were
tried in increasing order from 1 and all earlier ones collided), it is
itself collision-free, and it is pushed onto the reserved set that is
returned. -/
theorem unique_path_char (fs : List String) (folder filename : String)
    (reserved : List String) :
    ∃ k, (unique_path fs folder filename reserved).1 = candidateAt folder filename k ∧
      collides fs reserved (candidateAt folder filename k) = false ∧
      (∀ i, i < k → collides fs reserved (candidateAt folder filename i) = true) ∧
      (unique_path fs folder filename reserved).2 =
        (unique_path fs folder filename reserved).1 :: reserved := by
  obtain ⟨j, hj, hjf⟩ := exists_free_candidate fs reserved folder filename
  have hsome := firstFree_isSome
    (fun k => collides fs reserved (candidateAt folder filename k))
    (uniquePathFuel fs reserved) 0 ⟨j, hj, by simpa using hjf⟩
  obtain ⟨k, hk⟩ := Option.isSome_iff_exists.mp hsome
  obtain ⟨-, hkf, hkmin⟩ := firstFree_spec _ _ _ _ hk
  refine ⟨k, ?_, hkf, fun i hi => hkmin i (Nat.zero_le i) hi, ?_⟩
  · simp only [unique_path, hk, Option.getD_some]
  · simp only [unique_path, hk, Option.getD_some]

theorem unique_path_not_reserved (fs : List String) (folder filename : String)
    (reserved : List String) :
    (unique_path fs folder filename reserved).1 ∉ reserved := by
  obtain ⟨k, h1, h2, -, -⟩ := unique_path_char fs folder filename reserved
  rw [h1]
  exact ((collides_eq_false_iff fs reserved _).mp h2).2

theorem unique_path_snd (fs : List String) (folder filename : String)
    (reserved : List String) :
    (unique_path fs folder filename reserved).2 =
      (unique_path fs folder filename reserved).1 :: reserved := by
  obtain ⟨k, -, -, -, h⟩ := unique_path_char fs folder filename reserved
  exact h

/-- A session's sequence of allocator calls threading one reserved set. -/
def runAlloc (fs : List String) (folder : String) (reserved : List String) :
    List String → List String × List String
  | [] => ([], reserved)
  | f :: rest =>
    let r := unique_path fs folder f reserved
    let rec' := runAlloc fs folder r.2 rest
    (r.1 :: rec'.1, rec'.2)

theorem runAlloc_avoids (fs : List String) (folder : String) :
    ∀ filenames reserved,
      (∀ p, p ∈ (runAlloc fs folder reserved filenames).1 → p ∉ reserved) ∧
      ((runAlloc fs folder reserved filenames).1).Nodup := by
  intro filenames
  induction filenames with
  | nil => intro reserved; simp [runAlloc]
  | cons f rest ih =>
    intro reserved
    obtain ⟨ihA, ihN⟩ := ih (unique_path fs folder f reserved).2
    constructor
    · intro p hp
      simp only [runAlloc, List.mem_cons] at hp
      rcases hp with rfl | hp
      · exact unique_path_not_reserved fs folder f reserved
      · intro hmem
        apply ihA p hp
        rw [unique_path_snd]
        exact List.mem_cons_of_mem _ hmem
    · simp only [runAlloc, List.nodup_cons]
      refine ⟨?_, ihN⟩
      intro hmem
      apply ihA _ hmem
      rw [unique_path_snd]
      exact List.mem_cons_self _ _

/-! ### The element resolver `handle_image` (`interface_py/download_helpers.py`) -/

/-- The three attributes `handle_image` reads from a DOM image element;
`none` models an absent attribute (`get_attribute` returning `None`). -/
structure ImgAttrs where
  src : Option String
  dataSrc : Option String
  dataSrcset : Option String
deriving Repr, DecidableEq

/-- Python's `a or b` on optional strings: `a` when it is truthy (present
and non-empty), otherwise `b`. -/
def pyOr (a b : Option String) : Option String :=
  match a with
  | some s => if s = "" then b else some s
  | none => b

/-- The fallback chain `get_attribute("src") or get_attribute("data-src") or
get_attribute("data-srcset")` followed by the `if not src: raise` guard;
`none` is the raised `RuntimeError` (no usable source). -/
def chosenSrc (e : ImgAttrs) : Option String :=
  match pyOr (pyOr e.src e.dataSrc) e.dataSrcset with
  | none => none
  | some s => if s = "" then none else some s

/-- The ASCII whitespace characters stripped by `str.strip()` and matched by
the regex class `\s` (the inputs of interest are ASCII). -/
def isPyWs (c : Char) : Bool :=
  c == ' ' || c == '\t' || c == '\n' || c == '\r' || c == '\x0b' || c == '\x0c'

/-- `str.strip()`: drop leading and trailing whitespace. -/
def pyStrip (s : String) : String :=
  String.mk (((s.data.dropWhile isPyWs).reverse.dropWhile isPyWs).reverse)

/-- `s.strip().split(" ")[0]`: a srcset entry reduced to its URL (the part
before the descriptor). -/
def srcsetEntryUrl (s : String) : String :=
  String.mk ((pyStrip s).data.takeWhile (fun c => c ≠ ' '))

/-- Python's `str.split` with a one-character separator: splitting an empty
string yields `[""]`, adjacent separators yield empty fields. -/
def splitOnChar (sep : Char) : List Char → List (List Char)
  | [] => [[]]
  | c :: rest =>
    let r := splitOnChar sep rest
    if c = sep then [] :: r
    else
      match r with
      | h :: t => (c :: h) :: t
      | [] => [[c]]

def pySplit (s : String) (sep : Char) : List String :=
  (splitOnChar sep s.data).map String.mk

/-- `pre in s` for a one-character `pre`, and `s.startswith(pre)`,
modelled on the character lists. -/
def strHas (s : String) (c : Char) : Bool := s.data.contains c

def strStarts (s pre : String) : Bool := pre.data.isPrefixOf s.data

/-- The responsive-image branch of `handle_image`: when the chosen value
contains both a space and a comma it is split on `","`, every entry is
reduced to its URL, and the last candidate is kept (`candidates[-1]`). -/
def srcsetSelect (s : String) : String :=
  if strHas s ' ' && strHas s ',' then
    ((pySplit s ',').map srcsetEntryUrl).getLastD ""
  else s

/-- Full source resolution of `handle_image`: attribute fallback chain, the
emptiness guard, then srcset selection; `none` is the raised error. -/
def resolveSrc (e : ImgAttrs) : Option String :=
  (chosenSrc e).map srcsetSelect

/-- Protocol-relative URL completion: `if src.startswith("//"): src =
"https:" + src`. -/
def remoteUrl (s : String) : String :=
  if strStarts s "//" then "https:" ++ s else s

/-- `src.split("?")[0]`: the URL with any query string discarded. -/
def beforeQuery (s : String) : String :=
  String.mk (s.data.takeWhile (fun c => c ≠ '?'))

/-- `os.path.basename` on POSIX paths: the part after the last `/`. -/
def basename (s : String) : String :=
  String.mk ((s.data.reverse.takeWhile (fun c => c ≠ '/')).reverse)

/-- Characters matched by `\w` in the size-suffix regex (ASCII part of the
Unicode-aware class; the filenames of interest are ASCII). -/
def isWordChar (c : Char) : Bool := c.isAlphanum || c == '_'

/-- `re.sub(r"-\d+(?=\.\w+$)", "", raw)`: remove a hyphen-plus-digits run
standing directly before the final dot-extension.  The lookahead `\.\w+$`
anchors any match right before the last dot with a non-empty all-word
extension behind it, so the pattern matches at most once and exactly when
the characters between the last `-` and the last `.` are one or more
digits. -/
def stripSizeSuffix (raw : String) : String :=
  let rev := raw.data.reverse
  let extRev := rev.takeWhile isWordChar
  if extRev = [] then raw
  else
    match rev.drop extRev.length with
    | '.' :: afterDot =>
      let digsRev := afterDot.takeWhile Char.isDigit
      if digsRev = [] then raw
      else
        match afterDot.drop digsRev.length with
        | '-' :: stemRev => String.mk (stemRev.reverse ++ '.' :: extRev.reverse)
        | _ => raw
    | _ => raw

/-- Filename seed of the remote branch of `handle_image`: complete the
scheme, discard the query, take the basename, strip the size suffix. -/
def remoteSeed (src : String) : String :=
  stripSizeSuffix (basename (beforeQuery (remoteUrl src)))

/-- `handle_image`: resolve the element's source, then either decode an
inline payload into a freshly allocated path (`url` result `none`) or
allocate a path for the remote URL.  `none` models a raised exception
(missing source, or a malformed inline header).  The filesystem `fs` and
the reserved set are explicit; the result carries the target path, the
optional URL to download, and the grown reserved set. -/
def handle_image (fs : List String) (e : ImgAttrs) (folder : String)
    (index : Nat) (reserved : List String) :
    Option (String × Option String × List String) :=
  match resolveSrc e with
  | none => none
  | some src =>
    if strStarts src "data:image" then
      if strHas src ',' then
        let header := (pySplit src ',').headD ""
        match pySplit header '/' with
        | _ :: sub :: _ =>
          let ext := (pySplit sub ';').headD ""
          let filename := "image_base64_" ++ Nat.repr index ++ "." ++ ext
          let r := unique_path fs folder filename reserved
          some (r.1, none, r.2)
        | _ => none
      else none
    else
      let url := remoteUrl src
      let r := unique_path fs folder (remoteSeed src) reserved
      some (r.1, some url, r.2)

/-- Specification-side reading of §4.1 step 1: the first non-empty value
among `src`, `data-src`, `data-srcset`, in that priority order. -/
def specFirstNonEmpty (e : ImgAttrs) : Option String :=
  ([e.src, e.dataSrc, e.dataSrcset].filterMap id).find? (fun s => s ≠ "")

theorem chosenSrc_eq_spec (e : ImgAttrs) : chosenSrc e = specFirstNonEmpty e := by
  obtain ⟨s, d, ds⟩ := e
  cases s with
  | none =>
    cases d with
    | none =>
      cases ds with
      | none => rfl
      | some c =>
        by_cases hc : c = "" <;>
          simp [chosenSrc, pyOr, specFirstNonEmpty, List.find?, hc]
    | some b =>
      cases ds with
      | none =>
        by_cases hb : b = "" <;>
          simp [chosenSrc, pyOr, specFirstNonEmpty, List.find?, hb]
      | some c =>
        by_cases hb : b = "" <;> by_cases hc : c = "" <;>
          simp [chosenSrc, pyOr, specFirstNonEmpty, List.find?, hb, hc]
  | some a =>
    cases d with
    | none =>
      cases ds with
      | none =>
        by_cases ha : a = "" <;>
          simp [chosenSrc, pyOr, specFirstNonEmpty, List.find?, ha]
      | some c =>
        by_cases ha : a = "" <;> by_cases hc : c = "" <;>
          simp [chosenSrc, pyOr, specFirstNonEmpty, List.find?, ha, hc]
    | some b =>
      cases ds with
      | none =>
        by_cases ha : a = "" <;> by_cases hb : b = "" <;>
          simp [chosenSrc, pyOr, specFirstNonEmpty, List.find?, ha, hb]
      | some c =>
        by_cases ha : a = "" <;> by_cases hb : b = "" <;> by_cases hc : c = "" <;>
          simp [chosenSrc, pyOr, specFirstNonEmpty, List.find?, ha, hb, hc]

theorem getLastD_map_entryUrl (l : List String) (d : String) :
    (l.map srcsetEntryUrl).getLastD (srcsetEntryUrl d) =
      srcsetEntryUrl (l.getLastD d) := by
  induction l generalizing d with
  | nil => rfl
  | cons a rest ih =>
    simp only [List.map_cons, List.getLastD_cons]
    exact ih a

theorem chosenSrc_eq_none_iff (e : ImgAttrs) :
    chosenSrc e = none ↔
      (e.src = none ∨ e.src = some "") ∧ (e.dataSrc = none ∨ e.dataSrc = some "") ∧
      (e.dataSrcset = none ∨ e.dataSrcset = some "") := by
  obtain ⟨s, d, ds⟩ := e
  cases s with
  | none =>
    cases d with
    | none =>
      cases ds with
      | none => simp [chosenSrc, pyOr]
      | some c => by_cases hc : c = "" <;> simp [chosenSrc, pyOr, hc]
    | some b =>
      cases ds with
      | none => by_cases hb : b = "" <;> simp [chosenSrc, pyOr, hb]
      | some c =>
        by_cases hb : b = "" <;> by_cases hc : c = "" <;>
          simp [chosenSrc, pyOr, hb, hc]
  | some a =>
    cases d with
    | none =>
      cases ds with
      | none => by_cases ha : a = "" <;> simp [chosenSrc, pyOr, ha]
      | some c =>
        by_cases ha : a = "" <;> by_cases hc : c = "" <;>
          simp [chosenSrc, pyOr, ha, hc]
    | some b =>
      cases ds with
      | none =>
        by_cases ha : a = "" <;> by_cases hb : b = "" <;>
          simp [chosenSrc, pyOr, ha, hb]
      | some c =>
        by_cases ha : a = "" <;> by_cases hb : b = "" <;> by_cases hc : c = "" <;>
          simp [chosenSrc, pyOr, ha, hb, hc]

/-! ### Claim theorems C1 and C4 -/

/-- C1: across any sequence of `unique_path` calls threading one reserved
set over a fixed disk state, the returned paths are pairwise distinct; each
single call returns the candidate of the least collision-free step — on a
collision the numeric suffixes `_1, _2, …` were tried in increasing order
starting at 1 (every smaller step collided, the chosen one does not) — and
the chosen path is inserted into the reserved set that the call returns. -/
theorem c1_path_allocator :
    (∀ (fs : List String) (folder : String) (reserved : List String)
      (filenames : List String),
      ((runAlloc fs folder reserved filenames).1).Nodup) ∧
    (∀ (fs : List String) (folder filename : String) (reserved : List String),
      ∃ k, (unique_path fs folder filename reserved).1 = candidateAt folder filename k ∧
        collides fs reserved (candidateAt folder filename k) = false ∧
        (∀ i, i < k → collides fs reserved (candidateAt folder filename i) = true) ∧
        (unique_path fs folder filename reserved).2 =
          (unique_path fs folder filename reserved).1 :: reserved) :=
  ⟨fun fs folder reserved filenames => (runAlloc_avoids fs folder filenames reserved).2,
   fun fs folder filename reserved => unique_path_char fs folder filename reserved⟩

/-- Witness for C1 at a concrete session: two allocations of `a.png` into a
folder already holding `d/a.png` yield `d/a_1.png` then `d/a_2.png`,
pairwise distinct. -/
theorem c1_path_allocator_witness :
    (runAlloc ["d/a.png"] "d" [] ["a.png", "a.png"]).1 =
      ["d/a_1.png", "d/a_2.png"] ∧
    ((runAlloc ["d/a.png"] "d" [] ["a.png", "a.png"]).1).Nodup :=
  ⟨by rfl, c1_path_allocator.1 ["d/a.png"] "d" [] ["a.png", "a.png"]⟩

/-- C4: the resolver takes the first non-empty attribute among `src`,
`data-src`, `data-srcset` in that priority order (refinement against the
specification-side `specFirstNonEmpty`), fails exactly when all three are
absent or empty, and when the chosen value contains both a space and a
comma it selects the last comma-separated candidate's URL. -/
theorem c4_resolver_priority_and_srcset :
    (∀ e : ImgAttrs, resolveSrc e = (specFirstNonEmpty e).map srcsetSelect) ∧
    (∀ e : ImgAttrs, resolveSrc e = none ↔
      (e.src = none ∨ e.src = some "") ∧ (e.dataSrc = none ∨ e.dataSrc = some "") ∧
      (e.dataSrcset = none ∨ e.dataSrcset = some "")) ∧
    (∀ s : String, strHas s ' ' = true → strHas s ',' = true →
      srcsetSelect s = srcsetEntryUrl ((pySplit s ',').getLastD "")) := by
  refine ⟨fun e => ?_, fun e => ?_, fun s h1 h2 => ?_⟩
  · rw [resolveSrc, chosenSrc_eq_spec]
  · rw [resolveSrc, Option.map_eq_none']
    exact chosenSrc_eq_none_iff e
  · rw [srcsetSelect, if_pos (by rw [h1, h2]; rfl)]
    have hnil : srcsetEntryUrl "" = "" := rfl
    calc ((pySplit s ',').map srcsetEntryUrl).getLastD ""
        = ((pySplit s ',').map srcsetEntryUrl).getLastD (srcsetEntryUrl "") := by
          rw [hnil]
      _ = srcsetEntryUrl ((pySplit s ',').getLastD "") :=
          getLastD_map_entryUrl _ ""

/-- Witness for C4 at a concrete responsive-image value: the chain falls
through the empty `src` to `data-srcset` and the last candidate `b.jpg`
wins. -/
theorem c4_resolver_witness :
    strHas "a.jpg 1x, b.jpg 2x" ' ' = true ∧
    strHas "a.jpg 1x, b.jpg 2x" ',' = true ∧
    srcsetSelect "a.jpg 1x, b.jpg 2x" =
      srcsetEntryUrl ((pySplit "a.jpg 1x, b.jpg 2x" ',').getLastD "") ∧
    resolveSrc ⟨some "", none, some "a.jpg 1x, b.jpg 2x"⟩ = some "b.jpg" :=
  ⟨by rfl, by rfl,
   c4_resolver_priority_and_srcset.2.2 "a.jpg 1x, b.jpg 2x" (by rfl) (by rfl),
   by rfl⟩

theorem takeWhile_append_stop {p : Char → Bool} (l₁ : List Char) (x : Char)
    (l₂ : List Char) (h : ∀ c ∈ l₁, p c = true) (hx : p x = false) :
    (l₁ ++ x :: l₂).takeWhile p = l₁ := by
  induction l₁ with
  | nil => simp [List.takeWhile_cons, hx]
  | cons a l ih =>
    have ha : p a = true := h a (by simp)
    simp [List.takeWhile_cons, ha, ih (fun c hc => h c (by simp [hc]))]

theorem data_ne_nil_of_ne (s : String) (h : s ≠ "") : s.data ≠ [] := by
  intro hd
  apply h
  cases s with
  | mk d => rw [show d = [] from hd]

theorem beforeQuery_append (u q : String) (h : '?' ∉ u.data) :
    beforeQuery (u ++ "?" ++ q) = u := by
  apply String.ext
  show ((u ++ "?" ++ q).data.takeWhile (fun c => c ≠ '?')) = u.data
  have hdata : (u ++ "?" ++ q).data = u.data ++ '?' :: q.data := by
    have hq : ("?" : String).data = ['?'] := rfl
    simp [String.data_append, hq]
  rw [hdata]
  apply takeWhile_append_stop
  · intro c hc
    simp only [decide_eq_true_eq]
    exact fun hcc => h (hcc ▸ hc)
  · simp

theorem basename_append (d n : String) (h : '/' ∉ n.data) :
    basename (d ++ "/" ++ n) = n := by
  apply String.ext
  show ((d ++ "/" ++ n).data.reverse.takeWhile (fun c => c ≠ '/')).reverse = n.data
  have hdata : (d ++ "/" ++ n).data.reverse =
      n.data.reverse ++ '/' :: d.data.reverse := by
    have hs : ("/" : String).data = ['/'] := rfl
    simp [String.data_append, hs, List.reverse_append]
  have h1 : ∀ c ∈ n.data.reverse, (fun c => decide (c ≠ '/')) c = true := by
    intro c hc
    rw [List.mem_reverse] at hc
    simp only [decide_eq_true_eq]
    exact fun hcc => h (hcc ▸ hc)
  rw [hdata, takeWhile_append_stop _ _ _ h1 (by simp), List.reverse_reverse]

theorem stripSizeSuffix_concat (stem digits ext : String)
    (hd : digits ≠ "") (hdall : ∀ c ∈ digits.data, Char.isDigit c = true)
    (he : ext ≠ "") (heall : ∀ c ∈ ext.data, isWordChar c = true) :
    stripSizeSuffix (stem ++ "-" ++ digits ++ "." ++ ext) = stem ++ "." ++ ext := by
  have hdash : ("-" : String).data = ['-'] := rfl
  have hdot : ("." : String).data = ['.'] := rfl
  have hrev : (stem ++ "-" ++ digits ++ "." ++ ext).data.reverse =
      ext.data.reverse ++ '.' :: (digits.data.reverse ++ '-' :: stem.data.reverse) := by
    simp [String.data_append, hdash, hdot, List.reverse_append]
  have hwall : ∀ c ∈ ext.data.reverse, isWordChar c = true := by
    intro c hc; exact heall c (List.mem_reverse.mp hc)
  have hdigall : ∀ c ∈ digits.data.reverse, Char.isDigit c = true := by
    intro c hc; exact hdall c (List.mem_reverse.mp hc)
  have htake : (ext.data.reverse ++ '.' ::
      (digits.data.reverse ++ '-' :: stem.data.reverse)).takeWhile isWordChar =
      ext.data.reverse :=
    takeWhile_append_stop _ _ _ hwall (by rfl)
  have hne : ext.data.reverse ≠ [] := by
    simp only [ne_eq, List.reverse_eq_nil_iff]
    exact data_ne_nil_of_ne ext he
  have hdne : digits.data.reverse ≠ [] := by
    simp only [ne_eq, List.reverse_eq_nil_iff]
    exact data_ne_nil_of_ne digits hd
  have htake2 : (digits.data.reverse ++ '-' :: stem.data.reverse).takeWhile
      Char.isDigit = digits.data.reverse :=
    takeWhile_append_stop _ _ _ hdigall (by rfl)
  simp only [stripSizeSuffix, hrev, htake, if_neg hne, List.drop_left, htake2,
    if_neg hdne]
  apply String.ext
  have hfin : (stem ++ "." ++ ext).data = stem.data ++ '.' :: ext.data := by
    simp [String.data_append, hdot]
  simp [hfin]

/-- C5: the remote-source filename computation of `handle_image`: a
protocol-relative value is completed with `https:`, the basename is taken
with the query string discarded
(`https://example.com/img/test.png?x=1 ↦ test.png`), and a hyphen-digits
size suffix directly before the final dot-extension is stripped, for any
stem, non-empty digit run and non-empty word-character extension
(`photo-800.jpg ↦ photo.jpg`). -/
theorem c5_remote_filename_seed :
    (∀ s : String, strStarts s "//" = true → remoteUrl s = "https:" ++ s) ∧
    (∀ u q : String, '?' ∉ u.data → beforeQuery (u ++ "?" ++ q) = u) ∧
    (∀ d n : String, '/' ∉ n.data → basename (d ++ "/" ++ n) = n) ∧
    remoteSeed "https://example.com/img/test.png?x=1" = "test.png" ∧
    (∀ stem digits ext : String,
      digits ≠ "" → digits.data.all Char.isDigit = true →
      ext ≠ "" → ext.data.all isWordChar = true →
      stripSizeSuffix (stem ++ "-" ++ digits ++ "." ++ ext) = stem ++ "." ++ ext) ∧
    remoteSeed "//cdn.example.com/p/photo-800.jpg?w=100" = "photo.jpg" := by
  refine ⟨fun s hs => ?_, beforeQuery_append, basename_append, by rfl,
    fun stem digits ext h1 h2 h3 h4 => ?_, by rfl⟩
  · rw [remoteUrl, if_pos hs]
  · exact stripSizeSuffix_concat stem digits ext h1
      (List.all_eq_true.mp h2) h3 (List.all_eq_true.mp h4)

/-- Witness for C5 at concrete inputs. -/
theorem c5_remote_filename_witness :
    strStarts "//cdn.example.com/x.png" "//" = true ∧
    remoteUrl "//cdn.example.com/x.png" = "https://cdn.example.com/x.png" ∧
    stripSizeSuffix ("photo" ++ "-" ++ "800" ++ "." ++ "jpg") =
      "photo" ++ "." ++ "jpg" :=
  ⟨by rfl,
   c5_remote_filename_seed.1 "//cdn.example.com/x.png" (by rfl),
   c5_remote_filename_seed.2.2.2.2.1 "photo" "800" "jpg"
     (by decide) (by rfl) (by decide) (by rfl)⟩

/-! ### The download orchestrator (`interface_py/scraper_images.py`)

`download_images` iterates the discovered elements in a first loop whose
whole per-element body sits in a `try` block: `handle_image`, the attribute
re-wait, then either the inline bookkeeping (callback included) or the
submission of the remote fetch to the pool.  A second loop consumes the
futures in completion order (`as_completed`); its `try` covers
`fut.result()` and the bookkeeping, the `except` increments `skipped`, and
the progress update runs after either.  What the orchestrator can observe
of one element is captured by `ElemCase`; the alt-rename step is the
identity here (as when `use_alt_json` is false) — it never raises and does
not affect the counters. -/

/-- One discovered element, as far as the counting logic can observe it:
the resolution phase (`handle_image` plus the re-wait) raises, or yields an
inline image already written (`url_to_download is None`), or yields a
remote fetch whose network outcome is `fetchOk`. -/
inductive ElemCase where
  | resolveFail
  | inlineData (path : String)
  | remote (path : String) (fetchOk : Bool)
deriving Repr, DecidableEq

/-- The counters and observable calls of one `download_images` session. -/
structure OrchState where
  downloaded : Nat
  skipped : Nat
  callbacks : List Nat
  errorLogs : List Nat
  firstImage : Option String
deriving Repr, DecidableEq

def initOrch : OrchState := ⟨0, 0, [], [], none⟩

def setFirst (st : OrchState) (p : String) : Option String :=
  match st.firstImage with
  | none => some p
  | some q => some q

/-- The first (discovery) loop over the enumerated elements.  Returns the
state and the submitted futures `(idx, path, fetchOk)` in submission
order.  An exception anywhere in the body is caught by the `except`, which
only logs — no skip increment, no progress callback. -/
def phase1 : List (Nat × ElemCase) → OrchState → OrchState × List (Nat × String × Bool)
  | [], st => (st, [])
  | (idx, e) :: rest, st =>
    match e with
    | .resolveFail =>
      phase1 rest { st with errorLogs := st.errorLogs ++ [idx] }
    | .inlineData p =>
      phase1 rest { st with
        downloaded := st.downloaded + 1,
        firstImage := setFirst st p,
        callbacks := st.callbacks ++ [idx] }
    | .remote p ok =>
      let r := phase1 rest st
      (r.1, (idx, p, ok) :: r.2)

/-- The second loop over `as_completed(futures)`: success bumps
`downloaded`, failure logs and bumps `skipped`; the progress callback runs
once per future either way. -/
def phase2 : List (Nat × String × Bool) → OrchState → OrchState
  | [], st => st
  | (idx, p, ok) :: rest, st =>
    let st' :=
      if ok then
        { st with
          downloaded := st.downloaded + 1,
          firstImage := setFirst st p,
          callbacks := st.callbacks ++ [idx] }
      else
        { st with
          skipped := st.skipped + 1,
          errorLogs := st.errorLogs ++ [idx],
          callbacks := st.callbacks ++ [idx] }
    phase2 rest st'

def enumFrom (i : Nat) : List ElemCase → List (Nat × ElemCase)
  | [] => []
  | e :: rest => (i, e) :: enumFrom (i + 1) rest

/-- The counting core of one `download_images` session: discovery loop from
index 1, then the futures processed in the completion order given by
`order` (a permutation of the submitted futures — `as_completed` yields
them in whatever order the pool finishes them). -/
def download_images_run (elems : List ElemCase)
    (order : List (Nat × String × Bool)) : OrchState :=
  phase2 order (phase1 (enumFrom 1 elems) initOrch).1

def isResolveFail : ElemCase → Bool
  | .resolveFail => true
  | _ => false

def isRemoteFail : ElemCase → Bool
  | .remote _ ok => !ok
  | _ => false

def isInlineData : ElemCase → Bool
  | .inlineData _ => true
  | _ => false

def isRemoteOk : ElemCase → Bool
  | .remote _ ok => ok
  | _ => false

theorem phase2_counts (l : List (Nat × String × Bool)) :
    ∀ st : OrchState,
      (phase2 l st).callbacks.length = st.callbacks.length + l.length ∧
      (phase2 l st).skipped = st.skipped + l.countP (fun f => !f.2.2) ∧
      (phase2 l st).downloaded = st.downloaded + l.countP (fun f => f.2.2) ∧
      (phase2 l st).errorLogs.length =
        st.errorLogs.length + l.countP (fun f => !f.2.2) := by
  induction l with
  | nil => intro st; simp [phase2]
  | cons f rest ih =>
    intro st
    obtain ⟨idx, p, ok⟩ := f
    cases ok with
    | true =>
      obtain ⟨ih1, ih2, ih3, ih4⟩ :=
        ih ⟨st.downloaded + 1, st.skipped, st.callbacks ++ [idx], st.errorLogs,
          setFirst st p⟩
      simp_all [phase2, List.countP_cons]
      omega
    | false =>
      obtain ⟨ih1, ih2, ih3, ih4⟩ :=
        ih ⟨st.downloaded, st.skipped + 1, st.callbacks ++ [idx],
          st.errorLogs ++ [idx], st.firstImage⟩
      simp_all [phase2, List.countP_cons]
      omega

theorem phase1_counts (l : List (Nat × ElemCase)) :
    ∀ st : OrchState,
      (phase1 l st).1.callbacks.length =
        st.callbacks.length + l.countP (fun p => isInlineData p.2) ∧
      (phase1 l st).1.skipped = st.skipped ∧
      (phase1 l st).1.downloaded =
        st.downloaded + l.countP (fun p => isInlineData p.2) ∧
      (phase1 l st).1.errorLogs.length =
        st.errorLogs.length + l.countP (fun p => isResolveFail p.2) ∧
      (phase1 l st).2.length = l.countP (fun p => !isInlineData p.2 && !isResolveFail p.2) ∧
      (phase1 l st).2.countP (fun f => !f.2.2) =
        l.countP (fun p => isRemoteFail p.2) ∧
      (phase1 l st).2.countP (fun f => f.2.2) =
        l.countP (fun p => isRemoteOk p.2) := by
  induction l with
  | nil => intro st; simp [phase1]
  | cons q rest ih =>
    intro st
    obtain ⟨idx, e⟩ := q
    cases e with
    | resolveFail =>
      obtain ⟨ih1, ih2, ih3, ih4, ih5, ih6, ih7⟩ :=
        ih ⟨st.downloaded, st.skipped, st.callbacks, st.errorLogs ++ [idx],
          st.firstImage⟩
      simp_all [phase1, List.countP_cons, isInlineData, isResolveFail,
        isRemoteFail, isRemoteOk]
      omega
    | inlineData p =>
      obtain ⟨ih1, ih2, ih3, ih4, ih5, ih6, ih7⟩ :=
        ih ⟨st.downloaded + 1, st.skipped, st.callbacks ++ [idx], st.errorLogs,
          setFirst st p⟩
      simp_all [phase1, List.countP_cons, isInlineData, isResolveFail,
        isRemoteFail, isRemoteOk]
      omega
    | remote p ok =>
      obtain ⟨ih1, ih2, ih3, ih4, ih5, ih6, ih7⟩ := ih st
      cases ok <;>
        simp_all [phase1, List.countP_cons, isInlineData, isResolveFail,
          isRemoteFail, isRemoteOk]

theorem enumFrom_countP (p : ElemCase → Bool) :
    ∀ (l : List ElemCase) (i : Nat),
      (enumFrom i l).countP (fun q => p q.2) = l.countP p := by
  intro l
  induction l with
  | nil => intro i; rfl
  | cons e rest ih => intro i; simp [enumFrom, List.countP_cons, ih]

theorem enumFrom_length (l : List ElemCase) (i : Nat) :
    (enumFrom i l).length = l.length := by
  induction l generalizing i with
  | nil => rfl
  | cons e rest ih => simp [enumFrom, ih]

theorem isInlineData_fail : isInlineData .resolveFail = false := rfl

theorem isInlineData_inl (p : String) : isInlineData (.inlineData p) = true := rfl

theorem isInlineData_rem (p : String) (ok : Bool) :
    isInlineData (.remote p ok) = false := rfl

theorem isResolveFail_fail : isResolveFail .resolveFail = true := rfl

theorem isResolveFail_inl (p : String) : isResolveFail (.inlineData p) = false := rfl

theorem isResolveFail_rem (p : String) (ok : Bool) :
    isResolveFail (.remote p ok) = false := rfl

theorem isRemoteOk_fail : isRemoteOk .resolveFail = false := rfl

theorem isRemoteOk_inl (p : String) : isRemoteOk (.inlineData p) = false := rfl

theorem isRemoteOk_rem (p : String) (ok : Bool) : isRemoteOk (.remote p ok) = ok := rfl

theorem isRemoteFail_fail : isRemoteFail .resolveFail = false := rfl

theorem isRemoteFail_inl (p : String) : isRemoteFail (.inlineData p) = false := rfl

theorem isRemoteFail_rem (p : String) (ok : Bool) :
    isRemoteFail (.remote p ok) = !ok := rfl

theorem elem_partition (l : List ElemCase) :
    l.countP isInlineData + l.countP (fun e => !isInlineData e && !isResolveFail e) +
      l.countP isResolveFail = l.length := by
  induction l with
  | nil => rfl
  | cons e rest ih =>
    cases e <;>
      simp [List.countP_cons, isInlineData_fail, isInlineData_inl,
        isInlineData_rem, isResolveFail_fail, isResolveFail_inl,
        isResolveFail_rem] <;>
      omega

theorem remote_split (l : List ElemCase) :
    l.countP (fun e => !isInlineData e && !isResolveFail e) =
      l.countP isRemoteOk + l.countP isRemoteFail := by
  induction l with
  | nil => rfl
  | cons e rest ih =>
    cases e with
    | resolveFail =>
      simp [List.countP_cons, isInlineData_fail, isResolveFail_fail,
        isRemoteOk_fail, isRemoteFail_fail, ih]
    | inlineData p =>
      simp [List.countP_cons, isInlineData_inl, isResolveFail_inl,
        isRemoteOk_inl, isRemoteFail_inl, ih]
    | remote p ok =>
      cases ok <;>
        simp [List.countP_cons, isInlineData_rem, isResolveFail_rem,
          isRemoteOk_rem, isRemoteFail_rem, ih] <;>
        omega

theorem download_images_run_eq (elems : List ElemCase)
    (order : List (Nat × String × Bool)) :
    download_images_run elems order =
      phase2 order (phase1 (enumFrom 1 elems) initOrch).1 := rfl

/-- Counterexample to C2 as stated: a session with one discovered element
whose resolution raises (`total = 1`) submits no future, and the progress
callback is never invoked — not once per element. -/
theorem c2_counterexample :
    ([ElemCase.resolveFail] : List ElemCase).length = 1 ∧
    (phase1 (enumFrom 1 [ElemCase.resolveFail]) initOrch).2 = [] ∧
    (download_images_run [ElemCase.resolveFail] []).callbacks.length = 0 := by
  decide

/-- C2 (amended): the progress callback fires exactly once per element that
survives the resolution phase — each inline success and each submitted
remote fetch, the latter regardless of fetch outcome — so its invocation
count is `total` minus the number of elements whose resolution raised; in
particular it equals `total` when no resolution fails. -/
theorem c2_progress_callback_count (elems : List ElemCase)
    (order : List (Nat × String × Bool))
    (hperm : order.Perm (phase1 (enumFrom 1 elems) initOrch).2) :
    (download_images_run elems order).callbacks.length =
      elems.length - elems.countP isResolveFail ∧
    (elems.countP isResolveFail = 0 →
      (download_images_run elems order).callbacks.length = elems.length) := by
  obtain ⟨h11, -, -, -, h15, -, -⟩ := phase1_counts (enumFrom 1 elems) initOrch
  obtain ⟨h21, -, -, -⟩ := phase2_counts order (phase1 (enumFrom 1 elems) initOrch).1
  have hlen : order.length = (phase1 (enumFrom 1 elems) initOrch).2.length :=
    hperm.length_eq
  have hpart := elem_partition elems
  have he1 := enumFrom_countP isInlineData elems 1
  have he2 := enumFrom_countP (fun e => !isInlineData e && !isResolveFail e) elems 1
  rw [download_images_run_eq]
  constructor
  · rw [h21, h11, he1, hlen, h15, he2]
    simp only [initOrch]
    simp only [List.length_nil]
    omega
  · intro h0
    rw [h21, h11, he1, hlen, h15, he2]
    simp only [initOrch]
    simp only [List.length_nil]
    omega

/-- Witness for C2 (amended) at a concrete session: one inline element and
one failing remote fetch, completion order equal to submission order; the
callback fires twice for the two elements. -/
theorem c2_progress_callback_witness :
    (download_images_run
        [ElemCase.inlineData "d/x.png", ElemCase.remote "d/y.png" false]
        [(2, "d/y.png", false)]).callbacks.length =
      ([ElemCase.inlineData "d/x.png", ElemCase.remote "d/y.png" false] :
        List ElemCase).length -
      ([ElemCase.inlineData "d/x.png", ElemCase.remote "d/y.png" false] :
        List ElemCase).countP isResolveFail :=
  (c2_progress_callback_count
    [ElemCase.inlineData "d/x.png", ElemCase.remote "d/y.png" false]
    [(2, "d/y.png", false)] (List.Perm.refl _)).1

/-- Counterexample to C3 as stated: the resolution-phase exception of the
single element is logged but the skipped counter stays 0 — the exception
does not increment `skipped`. -/
theorem c3_counterexample :
    (download_images_run [ElemCase.resolveFail] []).skipped = 0 ∧
    (download_images_run [ElemCase.resolveFail] []).errorLogs = [1] := by
  decide

/-- C3 (amended): every per-element exception is caught and logged and
never aborts the processing of other elements — each element contributes
its own outcome to the final counters — but only download-phase (remote
fetch) failures increment `skipped`; resolution-phase exceptions are
logged without touching `skipped`. -/
theorem c3_per_element_isolation (elems : List ElemCase)
    (order : List (Nat × String × Bool))
    (hperm : order.Perm (phase1 (enumFrom 1 elems) initOrch).2) :
    (download_images_run elems order).skipped = elems.countP isRemoteFail ∧
    (download_images_run elems order).errorLogs.length =
      elems.countP isResolveFail + elems.countP isRemoteFail ∧
    (download_images_run elems order).downloaded =
      elems.countP isInlineData + elems.countP isRemoteOk ∧
    (download_images_run elems order).downloaded +
      (download_images_run elems order).skipped +
      elems.countP isResolveFail = elems.length := by
  obtain ⟨-, h12, h13, h14, -, h16, h17⟩ :=
    phase1_counts (enumFrom 1 elems) initOrch
  obtain ⟨-, h22, h23, h24⟩ :=
    phase2_counts order (phase1 (enumFrom 1 elems) initOrch).1
  have hofail : order.countP (fun f => !f.2.2) =
      (phase1 (enumFrom 1 elems) initOrch).2.countP (fun f => !f.2.2) :=
    hperm.countP_eq _
  have hook : order.countP (fun f => f.2.2) =
      (phase1 (enumFrom 1 elems) initOrch).2.countP (fun f => f.2.2) :=
    hperm.countP_eq _
  have he1 := enumFrom_countP isInlineData elems 1
  have he3 := enumFrom_countP isResolveFail elems 1
  have he4 := enumFrom_countP isRemoteFail elems 1
  have he5 := enumFrom_countP isRemoteOk elems 1
  have hpart := elem_partition elems
  have hsplit := remote_split elems
  rw [download_images_run_eq]
  refine ⟨?_, ?_, ?_, ?_⟩
  · rw [h22, h12, hofail, h16, he4]
    simp [initOrch]
  · rw [h24, h14, hofail, h16, he3, he4]
    simp [initOrch]
  · rw [h23, h13, hook, h17, he1, he5]
    simp [initOrch]
  · rw [h23, h13, hook, h17, h22, h12, hofail, h16, he1, he5, he4]
    simp only [initOrch]
    omega

/-- Witness for C3 (amended) at a concrete session: one failing remote
fetch and one inline element give one skipped, one logged error, one
downloaded, and all elements accounted for. -/
theorem c3_per_element_witness :
    (download_images_run
        [ElemCase.remote "d/y.png" false, ElemCase.inlineData "d/x.png"]
        [(1, "d/y.png", false)]).skipped =
      ([ElemCase.remote "d/y.png" false, ElemCase.inlineData "d/x.png"] :
        List ElemCase).countP isRemoteFail :=
  (c3_per_element_isolation
    [ElemCase.remote "d/y.png" false, ElemCase.inlineData "d/x.png"]
    [(1, "d/y.png", false)] (List.Perm.refl _)).1

/-! ### URL validation order in `download_images`
(`interface_py/scraper_images.py`)

The function body begins, in this order: the reserved set is created, a
`SettingsManager()` is constructed — whose `__init__` calls
`load_settings`, which stats and possibly reads `settings.json` on disk —
the user agent is taken from those settings, the URL scheme check runs and
raises `ValueError` on failure, and only then `setup_driver()` launches
the browser and `driver.get(url)` navigates. -/

inductive Ev where
  | settingsInit
  | raiseInvalidURL
  | driverSetup
  | navigate
deriving Repr, DecidableEq

/-- Whether the step touches disk or network: `SettingsManager()` stats and
reads `settings.json`; the driver setup and the navigation obviously do. -/
def Ev.isIO : Ev → Bool
  | .settingsInit => true
  | .raiseInvalidURL => false
  | .driverSetup => true
  | .navigate => true

/-- `str.lower` (character-wise; the prefixes compared against are ASCII). -/
def pyLower (s : String) : String := String.mk (s.data.map Char.toLower)

/-- `url.lower().startswith(("http://", "https://"))`. -/
def validHttpUrl (url : String) : Bool :=
  strStarts (pyLower url) "http://" || strStarts (pyLower url) "https://"

/-- The observable step sequence of `download_images` up to the first page
navigation, in source order.  On an invalid URL the `ValueError` is raised
after the settings manager has been constructed and before the driver is
set up. -/
def downloadImagesEvents (url : String) : List Ev :=
  Ev.settingsInit ::
    (if validHttpUrl url then [Ev.driverSetup, Ev.navigate]
     else [Ev.raiseInvalidURL])

/-- Counterexample to C6 as stated: for the invalid URL
`"ftp://example.com"` the raise does come before any browser setup or
navigation, but it is preceded by the settings-manager construction, which
performs file I/O on `settings.json` — so the error is not raised before
any I/O. -/
theorem c6_counterexample :
    downloadImagesEvents "ftp://example.com" =
      [Ev.settingsInit, Ev.raiseInvalidURL] ∧
    Ev.isIO Ev.settingsInit = true := by
  constructor
  · rfl
  · rfl

/-- C6 (amended): for every URL that does not start (case-insensitively)
with `http://` or `https://`, `download_images` raises the invalid-URL
error immediately after the settings manager is constructed: before any
browser session is opened and before any navigation attempt — though not
before all I/O, since the settings file has already been read. -/
theorem c6_invalid_url_before_browser (url : String)
    (h : validHttpUrl url = false) :
    downloadImagesEvents url = [Ev.settingsInit, Ev.raiseInvalidURL] ∧
    Ev.driverSetup ∉ downloadImagesEvents url ∧
    Ev.navigate ∉ downloadImagesEvents url ∧
    (downloadImagesEvents url).getLast? = some Ev.raiseInvalidURL := by
  have he : downloadImagesEvents url = [Ev.settingsInit, Ev.raiseInvalidURL] := by
    rw [downloadImagesEvents, h]
    simp
  refine ⟨he, ?_, ?_, ?_⟩ <;> rw [he] <;> simp

/-- Witness for C6 (amended) at the concrete relative URL `"/p/img"`. -/
theorem c6_invalid_url_witness :
    validHttpUrl "/p/img" = false ∧
    downloadImagesEvents "/p/img" = [Ev.settingsInit, Ev.raiseInvalidURL] :=
  ⟨by rfl, (c6_invalid_url_before_browser "/p/img" (by rfl)).1⟩

/-! ### Alt-text renaming (`interface_py/rename_helpers.py`)

Paths stay strings; `pathlib` accessors are modelled on the character
lists.  The JSON mapping is an association list, the process-wide
`_ALT_SENTENCES_CACHE` is threaded explicitly, and the external effects of
`rename_with_alt` — the on-disk existence check, `random.choice`, and the
OS rename outcome — are fields of `RenameEnv`. -/

/-- `Path.parent`: everything before the last `/`; `"."` when the path has
no separator (as `pathlib` does for a bare filename). -/
def pathParent (p : String) : String :=
  if strHas p '/' then
    String.mk (((p.data.reverse.dropWhile (fun c => c ≠ '/')).drop 1).reverse)
  else "."

/-- `Path.name`: the final component (`""` for `"."`, as in `pathlib`). -/
def pathName (p : String) : String :=
  let b := basename p
  if b = "." then "" else b

/-- `Path.suffix`: the final component's extension with its dot, or `""`
when the last dot is leading, trailing or absent (`pathlib`'s rule
`0 < i < len(name) - 1`). -/
def pathSuffix (p : String) : String :=
  let name := (pathName p).data
  let i := rfindC '.' name
  if 0 < i ∧ i < (name.length : Int) - 1 then String.mk (name.drop i.toNat)
  else ""

/-- `path.parent.name.replace("_", " ")`: the product key used to look up
the sentence map. -/
def productKey (path : String) : String :=
  String.mk ((pathName (pathParent path)).data.map
    (fun c => if c = '_' then ' ' else c))

/-- The parsed `product_sentences.json`: product name to candidate
phrases. -/
def AltMap : Type := List (String × List String)

def lookupAlt (m : AltMap) (k : String) : Option (List String) :=
  ((m : List (String × List String)).find? (fun q => q.1 == k)).map
    (fun q => q.2)

/-- `rename_helpers.load_alt_sentences`, with the module-level cache and
the outcome of the file read passed explicitly: `readResult = none` models
any exception while opening or parsing the JSON, which the source logs and
converts to `{}`.  Returns the mapping, the updated cache, and whether a
read was attempted (`False` on a cache hit — even a cached empty map is
returned as-is). -/
def load_alt_sentences (cache : List (String × AltMap)) (path : String)
    (readResult : Option AltMap) : AltMap × List (String × AltMap) × Bool :=
  match (cache.find? (fun q => q.1 == path)).map (fun q => q.2) with
  | some cached => (cached, cache, false)
  | none =>
    let data := readResult.getD ([] : AltMap)
    (data, (path, data) :: cache, true)

/-- The rows of the Unicode NFD decomposition table relevant to the
accented letters handled here (data external to the repository; identity
on every other character, in particular on all of ASCII). -/
def nfdChar (c : Char) : List Char :=
  match c with
  | 'à' => ['a', '̀']
  | 'á' => ['a', '́']
  | 'â' => ['a', '̂']
  | 'ã' => ['a', '̃']
  | 'ä' => ['a', '̈']
  | 'å' => ['a', '̊']
  | 'ç' => ['c', '̧']
  | 'è' => ['e', '̀']
  | 'é' => ['e', '́']
  | 'ê' => ['e', '̂']
  | 'ë' => ['e', '̈']
  | 'ì' => ['i', '̀']
  | 'í' => ['i', '́']
  | 'î' => ['i', '̂']
  | 'ï' => ['i', '̈']
  | 'ñ' => ['n', '̃']
  | 'ò' => ['o', '̀']
  | 'ó' => ['o', '́']
  | 'ô' => ['o', '̂']
  | 'õ' => ['o', '̃']
  | 'ö' => ['o', '̈']
  | 'ù' => ['u', '̀']
  | 'ú' => ['u', '́']
  | 'û' => ['u', '̂']
  | 'ü' => ['u', '̈']
  | 'ý' => ['y', '́']
  | 'À' => ['A', '̀']
  | 'Â' => ['A', '̂']
  | 'Ç' => ['C', '̧']
  | 'È' => ['E', '̀']
  | 'É' => ['E', '́']
  | 'Ê' => ['E', '̂']
  | 'Ë' => ['E', '̈']
  | 'Î' => ['I', '̂']
  | 'Ï' => ['I', '̈']
  | 'Ñ' => ['N', '̃']
  | 'Ô' => ['O', '̂']
  | 'Ö' => ['O', '̈']
  | 'Ù' => ['U', '̀']
  | 'Û' => ['U', '̂']
  | 'Ü' => ['U', '̈']
  | _ => [c]

/-- Helper for `collapseWs`: the flag records whether we are inside a
whitespace run whose underscore was already emitted. -/
def collapseWsAux : Bool → List Char → List Char
  | _, [] => []
  | inRun, c :: rest =>
    if isPyWs c then
      if inRun then collapseWsAux true rest
      else '_' :: collapseWsAux true rest
    else c :: collapseWsAux false rest

/-- `re.sub(r"\s+", "_", ·)`: replace every maximal whitespace run by one
underscore. -/
def collapseWs (l : List Char) : List Char := collapseWsAux false l

/-- The characters kept by `re.sub(r"[^a-z0-9_-]", "", ·)`. -/
def isSlugChar (c : Char) : Bool :=
  (decide ('a' ≤ c) && decide (c ≤ 'z')) || c.isDigit || c == '_' || c == '-'

/-- `rename_helpers.clean_filename`: NFD-decompose, drop non-ASCII (which
strips the combining accents), lowercase, collapse whitespace runs to
single underscores, and remove everything outside `[a-z0-9_-]`. -/
def clean_filename (text : String) : String :=
  let normalized := text.data.flatMap nfdChar
  let asciiText := normalized.filter (fun c => c.toNat < 128)
  let lowered := asciiText.map Char.toLower
  let collapsed := collapseWs lowered
  String.mk (collapsed.filter isSlugChar)

/-- The external effects visible to one `rename_with_alt` call: the paths
existing on disk, the index drawn by `random.choice`, and whether the OS
rename call succeeds. -/
structure RenameEnv where
  fs : List String
  pick : Nat
  renameOk : Bool
deriving Repr, DecidableEq

/-- Result of one `rename_with_alt` call: the returned path, the two
threaded sets, whether a missing-key warning was logged by this call, and
the product key it looked up. -/
structure RenameOut where
  path : String
  warned : List String
  reserved : List String
  warnLogged : Bool
  key : String
deriving Repr, DecidableEq

/-- `rename_helpers.rename_with_alt`.  `if not phrase_list` covers both a
missing key and an empty list; the collision re-resolution through
`unique_path` triggers only when the target differs from the path and
exists on disk; a failing OS rename returns the original path (but keeps
whatever `unique_path` added to `reserved`). -/
def rename_with_alt (env : RenameEnv) (path : String) (sentences : AltMap)
    (warned : List String) (reserved : List String) : RenameOut :=
  let product_key := productKey path
  match lookupAlt sentences product_key with
  | none =>
    if product_key ∈ warned then ⟨path, warned, reserved, false, product_key⟩
    else ⟨path, product_key :: warned, reserved, true, product_key⟩
  | some [] =>
    if product_key ∈ warned then ⟨path, warned, reserved, false, product_key⟩
    else ⟨path, product_key :: warned, reserved, true, product_key⟩
  | some (p :: ps) =>
    let phrase := (p :: ps).getD (env.pick % (p :: ps).length) p
    let filename := clean_filename phrase ++ pathSuffix path
    let target := pathJoin (pathParent path) filename
    let tr :=
      if target ≠ path ∧ target ∈ env.fs then
        unique_path env.fs (pathParent path) filename reserved
      else (target, reserved)
    if env.renameOk then ⟨tr.1, warned, tr.2, false, product_key⟩
    else ⟨path, warned, tr.2, false, product_key⟩

/-- A session's sequence of renamer calls threading the warned-keys set and
the reserved set, as `download_images` does. -/
def renameSession (env : RenameEnv) (sentences : AltMap) :
    List String → List String → List String → List RenameOut
  | [], _, _ => []
  | p :: rest, warned, reserved =>
    let out := rename_with_alt env p sentences warned reserved
    out :: renameSession env sentences rest out.warned out.reserved

theorem rename_with_alt_facts (env : RenameEnv) (path : String)
    (sentences : AltMap) (warned reserved : List String) :
    (rename_with_alt env path sentences warned reserved).key = productKey path ∧
    (∀ K, K ∈ warned →
      K ∈ (rename_with_alt env path sentences warned reserved).warned) ∧
    ((rename_with_alt env path sentences warned reserved).warnLogged = true →
      productKey path ∉ warned ∧
      (rename_with_alt env path sentences warned reserved).warned =
        productKey path :: warned) ∧
    ((rename_with_alt env path sentences warned reserved).warnLogged = false →
      (rename_with_alt env path sentences warned reserved).warned = warned) := by
  cases hl : lookupAlt sentences (productKey path) with
  | none =>
    by_cases hw : productKey path ∈ warned
    · simp [rename_with_alt, hl, hw]
    · simp [rename_with_alt, hl, hw]
      exact fun K hK => Or.inr hK
  | some l =>
    cases l with
    | nil =>
      by_cases hw : productKey path ∈ warned
      · simp [rename_with_alt, hl, hw]
      · simp [rename_with_alt, hl, hw]
        exact fun K hK => Or.inr hK
    | cons p ps =>
      by_cases hr : env.renameOk <;>
        simp [rename_with_alt, hl, hr]

theorem renameSession_warn_once (env : RenameEnv) (sentences : AltMap)
    (K : String) :
    ∀ (paths warned reserved : List String),
      (K ∈ warned →
        (renameSession env sentences paths warned reserved).countP
          (fun o => o.warnLogged && o.key == K) = 0) ∧
      (renameSession env sentences paths warned reserved).countP
        (fun o => o.warnLogged && o.key == K) ≤ 1 := by
  intro paths
  induction paths with
  | nil => intro warned reserved; simp [renameSession]
  | cons p rest ih =>
    intro warned reserved
    obtain ⟨f1, f2, f3, f4⟩ := rename_with_alt_facts env p sentences warned reserved
    by_cases hwl : (rename_with_alt env p sentences warned reserved).warnLogged
    · obtain ⟨hnot, hwarned⟩ := f3 hwl
      by_cases hkey : (rename_with_alt env p sentences warned reserved).key == K
      · have hKeq : productKey p = K := by
          rw [← f1]
          exact eq_of_beq hkey
        constructor
        · intro hK
          exact absurd (hKeq ▸ hK) hnot
        · have hKmem : K ∈ (rename_with_alt env p sentences warned reserved).warned := by
            rw [hwarned, hKeq]
            exact List.mem_cons_self _ _
          have h0 := (ih (rename_with_alt env p sentences warned reserved).warned
            (rename_with_alt env p sentences warned reserved).reserved).1 hKmem
          simp [renameSession, List.countP_cons, hwl, hkey, h0]
      · have hpred : ((rename_with_alt env p sentences warned reserved).warnLogged &&
            ((rename_with_alt env p sentences warned reserved).key == K)) = false := by
          simp [hkey]
        constructor
        · intro hK
          have h0 := (ih (rename_with_alt env p sentences warned reserved).warned
            (rename_with_alt env p sentences warned reserved).reserved).1 (f2 K hK)
          simp [renameSession, List.countP_cons, hpred, h0]
        · have h1 := (ih (rename_with_alt env p sentences warned reserved).warned
            (rename_with_alt env p sentences warned reserved).reserved).2
          simp only [renameSession, List.countP_cons, hpred, if_false]
          simpa using h1
    · have hwl' : (rename_with_alt env p sentences warned reserved).warnLogged = false := by
        simpa using hwl
      have hw : (rename_with_alt env p sentences warned reserved).warned = warned :=
        f4 hwl'
      have hpred : ((rename_with_alt env p sentences warned reserved).warnLogged &&
          ((rename_with_alt env p sentences warned reserved).key == K)) = false := by
        simp [hwl']
      constructor
      · intro hK
        have hKmem : K ∈ (rename_with_alt env p sentences warned reserved).warned := by
          rw [hw]; exact hK
        have h0 := (ih (rename_with_alt env p sentences warned reserved).warned
          (rename_with_alt env p sentences warned reserved).reserved).1 hKmem
        simp [renameSession, List.countP_cons, hpred, h0]
      · have h1 := (ih (rename_with_alt env p sentences warned reserved).warned
          (rename_with_alt env p sentences warned reserved).reserved).2
        simp only [renameSession, List.countP_cons, hpred, if_false]
        simpa using h1

theorem rename_with_alt_unchanged (env : RenameEnv) (path : String)
    (sentences : AltMap) (warned reserved : List String)
    (h : lookupAlt sentences (productKey path) = none ∨
      lookupAlt sentences (productKey path) = some []) :
    (rename_with_alt env path sentences warned reserved).path = path ∧
    (rename_with_alt env path sentences warned reserved).reserved = reserved ∧
    ((rename_with_alt env path sentences warned reserved).warnLogged = true ↔
      productKey path ∉ warned) := by
  rcases h with h | h <;>
    by_cases hw : productKey path ∈ warned <;>
    simp [rename_with_alt, h, hw]

/-- C7: a product key that is absent from the sentence map or maps to an
empty list leaves the path and the reserved set unchanged and logs the
warning only when the key is not yet in the warned set — hence at most
once per distinct key across a whole session — and no exception arises
(the embedded function is total and returns the unchanged path); a failed
alt-JSON read degrades to the empty mapping, under which every rename call
returns its path unchanged. -/
theorem c7_missing_key_and_degrade :
    (∀ (env : RenameEnv) (path : String) (sentences : AltMap)
      (warned reserved : List String),
      (lookupAlt sentences (productKey path) = none ∨
        lookupAlt sentences (productKey path) = some []) →
      (rename_with_alt env path sentences warned reserved).path = path ∧
      (rename_with_alt env path sentences warned reserved).reserved = reserved ∧
      ((rename_with_alt env path sentences warned reserved).warnLogged = true ↔
        productKey path ∉ warned)) ∧
    (∀ (env : RenameEnv) (sentences : AltMap) (K : String)
      (paths warned reserved : List String),
      (renameSession env sentences paths warned reserved).countP
        (fun o => o.warnLogged && o.key == K) ≤ 1) ∧
    (∀ (cache : List (String × AltMap)) (path : String),
      cache.find? (fun q => q.1 == path) = none →
      (load_alt_sentences cache path none).1 = ([] : AltMap)) ∧
    (∀ (env : RenameEnv) (path : String) (warned reserved : List String),
      (rename_with_alt env path ([] : AltMap) warned reserved).path = path) := by
  refine ⟨rename_with_alt_unchanged, ?_, ?_, ?_⟩
  · intro env sentences K paths warned reserved
    exact (renameSession_warn_once env sentences K paths warned reserved).2
  · intro cache path h
    simp [load_alt_sentences, h]
  · intro env path warned reserved
    exact (rename_with_alt_unchanged env path ([] : AltMap) warned reserved
      (Or.inl rfl)).1

/-- Witness for C7 at a concrete session: two files of a product missing
from the map are left unchanged and the key is warned exactly once. -/
theorem c7_missing_key_witness :
    (rename_with_alt ⟨[], 0, true⟩ "images/My_Product/photo.jpg"
        ([("Other", ["x"])] : AltMap) [] []).path = "images/My_Product/photo.jpg" ∧
    (renameSession ⟨[], 0, true⟩ ([] : AltMap)
        ["images/My_Product/a.jpg", "images/My_Product/b.jpg"] [] []).countP
      (fun o => o.warnLogged && o.key == "My Product") ≤ 1 :=
  ⟨(c7_missing_key_and_degrade.1 ⟨[], 0, true⟩ "images/My_Product/photo.jpg"
      ([("Other", ["x"])] : AltMap) [] [] (Or.inl (by rfl))).1,
   c7_missing_key_and_degrade.2.1 ⟨[], 0, true⟩ ([] : AltMap) "My Product"
     ["images/My_Product/a.jpg", "images/My_Product/b.jpg"] [] []⟩

/-- C8: `clean_filename` decomposes and strips accents, lowercases,
collapses whitespace runs to single underscores and removes everything
outside `[a-z0-9_-]` — so every output character is in that set, and the
accented example normalises as the spec describes — and the renamer's
target filename is exactly this slug concatenated with the original file's
extension. -/
theorem c8_slug_normalization :
    (∀ text : String, (clean_filename text).data.all isSlugChar = true) ∧
    clean_filename "Café  Noël 2024" = "cafe_noel_2024" ∧
    (∀ (env : RenameEnv) (path : String) (sentences : AltMap)
      (warned reserved : List String) (p : String) (ps : List String)
      (phrase target : String),
      lookupAlt sentences (productKey path) = some (p :: ps) →
      phrase = (p :: ps).getD (env.pick % (p :: ps).length) p →
      target = pathJoin (pathParent path)
        (clean_filename phrase ++ pathSuffix path) →
      env.renameOk = true →
      (target = path ∨ target ∉ env.fs) →
      (rename_with_alt env path sentences warned reserved).path = target) := by
  refine ⟨fun text => ?_, by rfl, ?_⟩
  · rw [List.all_eq_true]
    intro c hc
    exact (List.mem_filter.mp hc).2
  · intro env path sentences warned reserved p ps phrase target hl hphrase htarget
      hok hfree
    subst hphrase
    subst htarget
    have hcond : ¬(pathJoin (pathParent path)
        (clean_filename ((p :: ps).getD (env.pick % (p :: ps).length) p) ++
          pathSuffix path) ≠ path ∧
        pathJoin (pathParent path)
          (clean_filename ((p :: ps).getD (env.pick % (p :: ps).length) p) ++
            pathSuffix path) ∈ env.fs) := by
      rintro ⟨hne, hmem⟩
      rcases hfree with he | hnm
      · exact hne he
      · exact hnm hmem
    simp only [rename_with_alt, hl]
    rw [if_neg hcond, if_pos hok]

/-- Witness for C8 at a concrete rename: phrase `"Nice Chair"` for product
`My_Product` renames `photo.jpg` to `nice_chair.jpg`. -/
theorem c8_slug_witness :
    (rename_with_alt ⟨[], 0, true⟩ "images/My_Product/photo.jpg"
        ([("My Product", ["Nice Chair"])] : AltMap) [] []).path =
      pathJoin (pathParent "images/My_Product/photo.jpg")
        (clean_filename "Nice Chair" ++ pathSuffix "images/My_Product/photo.jpg") ∧
    pathJoin (pathParent "images/My_Product/photo.jpg")
        (clean_filename "Nice Chair" ++ pathSuffix "images/My_Product/photo.jpg") =
      "images/My_Product/nice_chair.jpg" :=
  ⟨c8_slug_normalization.2.2 ⟨[], 0, true⟩ "images/My_Product/photo.jpg"
      ([("My Product", ["Nice Chair"])] : AltMap) [] [] "Nice Chair" []
      "Nice Chair" _ (by rfl) (by rfl) rfl (by rfl) (Or.inr (by simp)),
   by rfl⟩

/-- C9 (implicit): the renamer re-resolves through the path allocator only
when the slug target exists on disk at that moment; a target that differs
from the current path, is absent on disk — even one sitting in the shared
reserved set — is renamed onto directly, and in that case the reserved set
is returned untouched (the result is never added to it). -/
theorem c9_rename_skips_reserved_check :
    ∀ (env : RenameEnv) (path : String) (sentences : AltMap)
      (warned reserved : List String) (p : String) (ps : List String)
      (filename target : String),
      lookupAlt sentences (productKey path) = some (p :: ps) →
      filename = clean_filename ((p :: ps).getD (env.pick % (p :: ps).length) p) ++
        pathSuffix path →
      target = pathJoin (pathParent path) filename →
      (target ≠ path → target ∉ env.fs → target ∈ reserved →
        env.renameOk = true →
        (rename_with_alt env path sentences warned reserved).path = target ∧
        (rename_with_alt env path sentences warned reserved).reserved = reserved) ∧
      (target ≠ path → target ∈ env.fs →
        (rename_with_alt env path sentences warned reserved).reserved =
          (unique_path env.fs (pathParent path) filename reserved).2 ∧
        (env.renameOk = true →
          (rename_with_alt env path sentences warned reserved).path =
            (unique_path env.fs (pathParent path) filename reserved).1)) := by
  intro env path sentences warned reserved p ps filename target hl hfilename htarget
  subst hfilename
  subst htarget
  constructor
  · intro hne hnfs hres hok
    have hcond : ¬(pathJoin (pathParent path)
        (clean_filename ((p :: ps).getD (env.pick % (p :: ps).length) p) ++
          pathSuffix path) ≠ path ∧
        pathJoin (pathParent path)
          (clean_filename ((p :: ps).getD (env.pick % (p :: ps).length) p) ++
            pathSuffix path) ∈ env.fs) := by
      rintro ⟨-, hmem⟩
      exact hnfs hmem
    simp only [rename_with_alt, hl]
    rw [if_neg hcond, if_pos hok]
    exact ⟨rfl, rfl⟩
  · intro hne hmem
    have hcond : pathJoin (pathParent path)
        (clean_filename ((p :: ps).getD (env.pick % (p :: ps).length) p) ++
          pathSuffix path) ≠ path ∧
        pathJoin (pathParent path)
          (clean_filename ((p :: ps).getD (env.pick % (p :: ps).length) p) ++
            pathSuffix path) ∈ env.fs := ⟨hne, hmem⟩
    simp only [rename_with_alt, hl]
    rw [if_pos hcond]
    constructor
    · by_cases hok : env.renameOk = true
      · rw [if_pos hok]
      · rw [if_neg hok]
    · intro hok
      rw [if_pos hok]

/-- Witness for C9 at a concrete rename whose target is in the reserved
set but not on disk: the file is renamed onto it directly and the reserved
set is unchanged. -/
theorem c9_rename_skips_reserved_witness :
    (rename_with_alt ⟨[], 0, true⟩ "images/My_Product/photo.jpg"
        ([("My Product", ["Nice Chair"])] : AltMap) []
        ["images/My_Product/nice_chair.jpg"]).path =
      pathJoin (pathParent "images/My_Product/photo.jpg")
        (clean_filename "Nice Chair" ++ pathSuffix "images/My_Product/photo.jpg") ∧
    (rename_with_alt ⟨[], 0, true⟩ "images/My_Product/photo.jpg"
        ([("My Product", ["Nice Chair"])] : AltMap) []
        ["images/My_Product/nice_chair.jpg"]).reserved =
      ["images/My_Product/nice_chair.jpg"] :=
  (c9_rename_skips_reserved_check ⟨[], 0, true⟩ "images/My_Product/photo.jpg"
      ([("My Product", ["Nice Chair"])] : AltMap) []
      ["images/My_Product/nice_chair.jpg"] "Nice Chair" [] _ _
      (by rfl) rfl rfl).1 (by decide) (by simp) (by decide) rfl

/-- C10 (implicit): when `load_alt_sentences` fails to read or parse the
file, the resulting empty mapping is cached under that path, so every
later call with the same path returns the empty mapping without reading
the file again — even when the read would now succeed. -/
theorem c10_cache_pins_failed_load (cache : List (String × AltMap))
    (path : String) (r2 : Option AltMap)
    (h : cache.find? (fun q => q.1 == path) = none) :
    (load_alt_sentences cache path none).1 = ([] : AltMap) ∧
    (load_alt_sentences cache path none).2.2 = true ∧
    load_alt_sentences (load_alt_sentences cache path none).2.1 path r2 =
      (([] : AltMap), (load_alt_sentences cache path none).2.1, false) := by
  have h1 : load_alt_sentences cache path none =
      (([] : AltMap), (path, ([] : AltMap)) :: cache, true) := by
    simp [load_alt_sentences, h]
  refine ⟨by rw [h1], by rw [h1], ?_⟩
  rw [h1]
  simp [load_alt_sentences, List.find?]

/-- Witness for C10: after a failed load of `"alt.json"`, a second call
returns the empty mapping without reading, although the file would now
parse to a non-empty mapping. -/
theorem c10_cache_pins_witness :
    load_alt_sentences (load_alt_sentences [] "alt.json" none).2.1 "alt.json"
        (some ([("K", ["x"])] : AltMap)) =
      (([] : AltMap), (load_alt_sentences [] "alt.json" none).2.1, false) :=
  (c10_cache_pins_failed_load [] "alt.json"
    (some ([("K", ["x"])] : AltMap)) (by rfl)).2.2

end Scrap

